import Mathlib

/-!
Shallow embedding of the backtesting and strategy-evaluation core of a
prediction-market dashboard.  The embedded code consists of the strategy
helpers and reference strategies (whale copy trading, spike reversal,
market making) and the static `BacktestEngine` class (`backtest`,
`isBetWinner`, `calculateHistoricalStats`, `prepareMarketSnapshot`).

Modelling conventions:
* JavaScript numbers are modelled as exact rationals (`ℚ`).
* `Date` values are modelled as `Int` millisecond timestamps; a nullable
  timestamp is `Option Int`.
* A nullable string (`resolvedOutcome`) is `Option String`; the JavaScript
  truthiness test `!market.resolvedOutcome` is modelled explicitly (it is
  false for `null` and for the empty string).
* `lodash.orderBy` and `Array.prototype.sort` (with a comparator, stable)
  are modelled by `List.insertionSort`, which is stable.
* `Math.sqrt` (used only for the market-making volatility estimate) has no
  exact rational counterpart; it is abstracted as an explicit function
  parameter `sq : ℚ → ℚ` of the market-making strategy.
* The wall clock read by `new Date()` is passed explicitly as a parameter
  `now : Int`.
* `toLowerCase` is modelled by `jsToLowerCase`, the character-wise ASCII
  lowering (the resolution outcomes compared by the engine are the ASCII
  labels of `outcomes`, such as Yes and No).
-/

/- The Batteries rational operations are irreducible by default, which
blocks elaborator-side evaluation of concrete runs; restore the default
reducibility locally so that witnesses evaluate by kernel reduction. -/
attribute [local semireducible] Rat.add Rat.sub Rat.mul Rat.inv

namespace Polymarket

/-- Trade/bet side, the TypeScript union type `buy | sell`. -/
inductive Side where
  | buy : Side
  | sell : Side
deriving DecidableEq

/-- One entry of `historicalPrices`: `{timestamp, price, outcome}`. -/
structure PricePoint where
  timestamp : Int
  price : ℚ
  outcome : String
deriving DecidableEq

/-- One entry of `trades`. -/
structure Trade where
  timestamp : Int
  side : Side
  amount : ℚ
  price : ℚ
  outcome : String
  maker : Option String
  taker : Option String
deriving DecidableEq

/-- The `PolymarketMarket` interface from the shared types module. -/
structure PolymarketMarket where
  marketId : String
  question : String
  outcomes : List String
  resolutionDate : Option Int
  historicalPrices : List PricePoint
  trades : List Trade
  resolvedOutcome : Option String
  volume : ℚ
  liquidity : ℚ
  active : Bool
  endDate : Option Int
deriving DecidableEq

/-- The `Bet` interface: a strategy proposal. -/
structure Bet where
  marketId : String
  outcome : String
  side : Side
  amount : ℚ
  priceLimit : ℚ
  reason : String
  timestamp : Int
deriving DecidableEq

/-- Resolution status of a backtested bet, the union `win | loss | pending`. -/
inductive BetResult where
  | win : BetResult
  | loss : BetResult
  | pending : BetResult
deriving DecidableEq

/-- `BacktestBet extends Bet` with `{result, payout, cost}`; the spread
`{...bet, result, payout, cost}` is modelled by keeping the original bet as
a field. -/
structure BacktestBet where
  bet : Bet
  result : BetResult
  payout : ℚ
  cost : ℚ
deriving DecidableEq

/-- The `EarningsPoint` interface. -/
structure EarningsPoint where
  timestamp : Int
  cumulativeEarnings : ℚ
  strategyId : String
deriving DecidableEq

/-- The `BacktestResult` interface. -/
structure BacktestResult where
  strategyId : String
  strategyName : String
  totalBets : Nat
  wins : Nat
  losses : Nat
  winRate : ℚ
  totalCost : ℚ
  totalWinnings : ℚ
  netProfit : ℚ
  roi : ℚ
  bets : List BacktestBet
  earningsOverTime : List EarningsPoint
deriving DecidableEq

/-- Strategy evaluation mode, the union `live | backtest`. -/
inductive Mode where
  | live : Mode
  | backtest : Mode
deriving DecidableEq

/-- The `StrategyContext` interface. -/
structure StrategyContext where
  mode : Mode
  asOf : Option Int
  trainingMarkets : Option (List PolymarketMarket)
  evaluationMarkets : Option (List PolymarketMarket)

/-- The `Strategy` interface.  The untyped `parameters` record is modelled
per concrete strategy by a typed parameter structure passed to its
bet-generation function. -/
structure Strategy where
  id : String
  name : String
  description : String
  stratType : String
  generateBets : List PolymarketMarket → StrategyContext → List Bet

/-- JavaScript truthiness of the nullable string `resolvedOutcome`:
`null` and the empty string are falsy. -/
def isTruthyOutcome : Option String → Bool
  | none => false
  | some s => !(s == "")

/-- `resolveMode`: `context?.mode ?? 'live'`; a context value is always
present in this model, so this is the `mode` field. -/
def resolveMode (context : StrategyContext) : Mode :=
  context.mode

/-- `isMarketEligible`: in backtest mode every supplied market is eligible;
in live mode the market must be unresolved (falsy `resolvedOutcome`) and
active. -/
def isMarketEligible (market : PolymarketMarket) (mode : Mode) : Bool :=
  match mode with
  | Mode.backtest => true
  | Mode.live => !(isTruthyOutcome market.resolvedOutcome) && market.active

/-- `determineDecisionTime`: in backtest mode, the timestamp of the last
element of `historicalPrices` when non-empty, else `endDate`, else
`resolutionDate`, else the wall clock `now`; in live mode, `now`. -/
def determineDecisionTime (now : Int) (market : PolymarketMarket)
    (mode : Mode) : Int :=
  match mode with
  | Mode.backtest =>
    match market.historicalPrices.getLast? with
    | some latestPoint => latestPoint.timestamp
    | none =>
      match market.endDate with
      | some e => e
      | none =>
        match market.resolutionDate with
        | some r => r
        | none => now
  | Mode.live => now

/-- `clampPrice`: `Math.max(0.01, Math.min(0.99, price))`. -/
def clampPrice (price : ℚ) : ℚ :=
  max (1/100) (min (99/100) price)

/-- `lodash.mean`: sum divided by length (the empty-list case is never
reached by the embedded call sites, which guard the length first). -/
def lodashMean (l : List ℚ) : ℚ :=
  l.sum / (l.length : ℚ)

/-- Ascending order on price points by timestamp (the sort key of
`orderBy(historicalPrices, ['timestamp'], ['asc'])`). -/
def priceTimeLe (p q : PricePoint) : Prop :=
  p.timestamp ≤ q.timestamp

instance priceTimeLe.decRel : DecidableRel priceTimeLe :=
  fun p q => inferInstanceAs (Decidable (p.timestamp ≤ q.timestamp))

instance priceTimeLe.total : IsTotal PricePoint priceTimeLe :=
  ⟨fun p q => Int.le_total p.timestamp q.timestamp⟩

instance priceTimeLe.trans : IsTrans PricePoint priceTimeLe :=
  ⟨fun _ _ _ h h2 => le_trans h h2⟩

/-- Ascending order on trades by timestamp. -/
def tradeTimeLe (p q : Trade) : Prop :=
  p.timestamp ≤ q.timestamp

instance tradeTimeLe.decRel : DecidableRel tradeTimeLe :=
  fun p q => inferInstanceAs (Decidable (p.timestamp ≤ q.timestamp))

instance tradeTimeLe.total : IsTotal Trade tradeTimeLe :=
  ⟨fun p q => Int.le_total p.timestamp q.timestamp⟩

instance tradeTimeLe.trans : IsTrans Trade tradeTimeLe :=
  ⟨fun _ _ _ h h2 => le_trans h h2⟩

/-- Descending order on trades by amount (the sort key of
`orderBy(recentWhales, ['amount'], ['desc'])`). -/
def tradeAmountGe (p q : Trade) : Prop :=
  q.amount ≤ p.amount

instance tradeAmountGe.decRel : DecidableRel tradeAmountGe :=
  fun p q => inferInstanceAs (Decidable (q.amount ≤ p.amount))

instance tradeAmountGe.total : IsTotal Trade tradeAmountGe :=
  ⟨fun p q => le_total q.amount p.amount⟩

instance tradeAmountGe.trans : IsTrans Trade tradeAmountGe :=
  ⟨fun _ _ _ h h2 => le_trans h2 h⟩

/-- Ascending order on nullable timestamps, nulls last (the deterministic
null placement used for the `endDate` sort of resolved markets). -/
def optIntAscLe : Option Int → Option Int → Prop
  | some x, some y => x ≤ y
  | some _, none => True
  | none, some _ => False
  | none, none => True

instance optIntAscLe.decRel : DecidableRel optIntAscLe := by
  intro a b
  cases a <;> cases b <;> simp only [optIntAscLe] <;> infer_instance

instance optIntAscLe.total : IsTotal (Option Int) optIntAscLe := by
  refine ⟨fun a b => ?_⟩
  cases a <;> cases b <;> simp only [optIntAscLe] <;> first
    | exact Or.inl trivial
    | exact Or.inr trivial
    | exact Int.le_total _ _

instance optIntAscLe.trans : IsTrans (Option Int) optIntAscLe := by
  refine ⟨fun a b c h h2 => ?_⟩
  cases a <;> cases b <;> cases c <;>
    simp only [optIntAscLe] at h h2 ⊢ <;> first
    | trivial
    | exact le_trans h h2

/-- Ascending order on markets by `endDate` (the sort key of
`orderBy(resolvedMarkets, ['endDate'], ['asc'])`). -/
def marketEndDateLe (a b : PolymarketMarket) : Prop :=
  optIntAscLe a.endDate b.endDate

instance marketEndDateLe.decRel : DecidableRel marketEndDateLe :=
  fun a b => inferInstanceAs (Decidable (optIntAscLe a.endDate b.endDate))

instance marketEndDateLe.total : IsTotal PolymarketMarket marketEndDateLe :=
  ⟨fun a b => IsTotal.total (r := optIntAscLe) a.endDate b.endDate⟩

instance marketEndDateLe.trans : IsTrans PolymarketMarket marketEndDateLe :=
  ⟨fun a b c h h2 =>
    IsTrans.trans (r := optIntAscLe) a.endDate b.endDate c.endDate h h2⟩

/-- The typed `parameters` record of the whale copy-trading strategy
(`COPY_TRADING_DEFAULTS` gives its initial value; the improvement loop may
rewrite it between runs, so the bet generator is parameterised over it). -/
structure CopyTradingParams where
  minWhaleVolume : ℚ
  copyDelay : ℚ
  betSize : ℚ
  maxBetsPerMarket : Nat
  minMarketLiquidity : ℚ

/-- `COPY_TRADING_DEFAULTS`. -/
def COPY_TRADING_DEFAULTS : CopyTradingParams :=
  { minWhaleVolume := 1000
    copyDelay := 7200
    betSize := 100
    maxBetsPerMarket := 3
    minMarketLiquidity := 50000 }

/-- The typed `parameters` record of the spike-reversal strategy. -/
structure SpikeDetectionParams where
  spikeThreshold : ℚ
  lookbackWindow : Int
  betSize : ℚ

/-- `SPIKE_DETECTION_DEFAULTS`. -/
def SPIKE_DETECTION_DEFAULTS : SpikeDetectionParams :=
  { spikeThreshold := 5/100
    lookbackWindow := 24
    betSize := 100 }

/-- The typed `parameters` record of the market-making strategy. -/
structure MarketMakingParams where
  minSpread : ℚ
  maxSpread : ℚ
  betSizePerSide : ℚ
  minLiquidity : ℚ

/-- `MARKET_MAKING_DEFAULTS`. -/
def MARKET_MAKING_DEFAULTS : MarketMakingParams :=
  { minSpread := 2/100
    maxSpread := 8/100
    betSizePerSide := 100
    minLiquidity := 30000 }

/-- Body of the `markets.forEach` loop of the whale copy-trading
`generateBets`: the bets contributed by one market.  The `reason` text is
diagnostic only and is modelled by a fixed string. -/
def copyTradingMarketBets (params : CopyTradingParams) (now : Int)
    (mode : Mode) (market : PolymarketMarket) : List Bet :=
  if isMarketEligible market mode then
    if market.liquidity < params.minMarketLiquidity then []
    else
      let decisionTime := determineDecisionTime now market mode
      let whaleTrades := market.trades.filter (fun trade =>
        !decide (trade.amount < params.minWhaleVolume) &&
          decide (trade.timestamp ≤ decisionTime))
      let recentWhales := whaleTrades.filter (fun trade =>
        let timeDiff : ℚ := ((decisionTime - trade.timestamp : Int) : ℚ) / 1000
        decide (0 ≤ timeDiff) && decide (timeDiff ≤ params.copyDelay))
      let topWhales :=
        (recentWhales.insertionSort tradeAmountGe).take params.maxBetsPerMarket
      topWhales.map (fun whaleTrade =>
        { marketId := market.marketId
          outcome := whaleTrade.outcome
          side := whaleTrade.side
          amount := params.betSize
          priceLimit := clampPrice (whaleTrade.price + 2/100)
          reason := "whale copy"
          timestamp := decisionTime })
  else []

/-- `copyTradingStrategy.generateBets`. -/
def copyTradingGenerateBets (params : CopyTradingParams) (now : Int)
    (markets : List PolymarketMarket) (context : StrategyContext) : List Bet :=
  let mode := resolveMode context
  markets.flatMap (copyTradingMarketBets params now mode)

/-- `copyTradingStrategy`, at a given wall-clock time and current value of
its parameters record. -/
def copyTradingStrategy (params : CopyTradingParams) (now : Int) : Strategy :=
  { id := "copy_trading"
    name := "Whale Copy Trading"
    description := "Copy trades from high-volume addresses (whales) within 1 hour"
    stratType := "copy_trading"
    generateBets := copyTradingGenerateBets params now }

/-- Body of the `markets.forEach` loop of the spike-reversal
`generateBets` (which reads `SPIKE_DETECTION_DEFAULTS` directly). -/
def spikeDetectionMarketBets (now : Int) (mode : Mode)
    (market : PolymarketMarket) : List Bet :=
  if isMarketEligible market mode then
    if market.historicalPrices.length < 10 then []
    else
      let decisionTime := determineDecisionTime now market mode
      let sortedPrices := market.historicalPrices.insertionSort priceTimeLe
      let cutoffTime :=
        decisionTime - SPIKE_DETECTION_DEFAULTS.lookbackWindow * 60 * 60 * 1000
      let recentPrices := sortedPrices.filter (fun p =>
        decide (cutoffTime ≤ p.timestamp) && decide (p.timestamp ≤ decisionTime))
      if recentPrices.length < 5 then []
      else
        let avgPrice := lodashMean (recentPrices.map (fun p => p.price))
        let currentPrice := ((recentPrices.getLast?).map (fun p => p.price)).getD 0
        let priceChange := (currentPrice - avgPrice) / avgPrice
        if SPIKE_DETECTION_DEFAULTS.spikeThreshold < |priceChange| then
          let betSide := if 0 < priceChange then Side.sell else Side.buy
          let targetPrice :=
            if betSide = Side.sell then currentPrice - 3/100
            else currentPrice + 3/100
          [{ marketId := market.marketId
             outcome := market.outcomes.headD ""
             side := betSide
             amount := SPIKE_DETECTION_DEFAULTS.betSize
             priceLimit := clampPrice targetPrice
             reason := "spike reversion"
             timestamp := decisionTime }]
        else []
  else []

/-- `spikeDetectionStrategy.generateBets`. -/
def spikeDetectionGenerateBets (now : Int)
    (markets : List PolymarketMarket) (context : StrategyContext) : List Bet :=
  let mode := resolveMode context
  markets.flatMap (spikeDetectionMarketBets now mode)

/-- `spikeDetectionStrategy`, at a given wall-clock time. -/
def spikeDetectionStrategy (now : Int) : Strategy :=
  { id := "spike_detection"
    name := "Price Spike Reversal"
    description := "Detect price spikes >5% and bet on mean reversion"
    stratType := "spike_detection"
    generateBets := spikeDetectionGenerateBets now }

/-- Body of the `markets.forEach` loop of the market-making `generateBets`
(which reads `MARKET_MAKING_DEFAULTS` directly).  `sq` abstracts
`Math.sqrt`. -/
def marketMakingMarketBets (sq : ℚ → ℚ) (now : Int) (mode : Mode)
    (market : PolymarketMarket) : List Bet :=
  if isMarketEligible market mode then
    if market.liquidity < MARKET_MAKING_DEFAULTS.minLiquidity then []
    else
      match market.historicalPrices.getLast? with
      | none => []
      | some lastPoint =>
        let currentPrice := lastPoint.price
        let decisionTime := determineDecisionTime now market mode
        let recentPrices :=
          market.historicalPrices.drop (market.historicalPrices.length - 20)
        let volatility :=
          if 1 < recentPrices.length then
            sq (lodashMean (recentPrices.map (fun p => (p.price - currentPrice)^2)))
          else 3/100
        let spread :=
          max MARKET_MAKING_DEFAULTS.minSpread
            (min MARKET_MAKING_DEFAULTS.maxSpread (volatility * 2))
        [{ marketId := market.marketId
           outcome := market.outcomes.headD ""
           side := Side.buy
           amount := MARKET_MAKING_DEFAULTS.betSizePerSide
           priceLimit := clampPrice (currentPrice - spread / 2)
           reason := "market making bid"
           timestamp := decisionTime },
         { marketId := market.marketId
           outcome := market.outcomes.headD ""
           side := Side.sell
           amount := MARKET_MAKING_DEFAULTS.betSizePerSide
           priceLimit := clampPrice (currentPrice + spread / 2)
           reason := "market making ask"
           timestamp := decisionTime }]
  else []

/-- `marketMakingStrategy.generateBets`; `sq` abstracts `Math.sqrt`. -/
def marketMakingGenerateBets (sq : ℚ → ℚ) (now : Int)
    (markets : List PolymarketMarket) (context : StrategyContext) : List Bet :=
  let mode := resolveMode context
  markets.flatMap (marketMakingMarketBets sq now mode)

/-- `marketMakingStrategy`, at a given wall-clock time, with `sq`
abstracting `Math.sqrt`. -/
def marketMakingStrategy (sq : ℚ → ℚ) (now : Int) : Strategy :=
  { id := "market_making"
    name := "Liquidity Provider Market Making"
    description := "Place balanced bids/asks with spreads for high-liquidity markets"
    stratType := "market_making"
    generateBets := marketMakingGenerateBets sq now }

/-- `String.prototype.toLowerCase`, modelled as character-wise ASCII
lowering. -/
def jsToLowerCase (s : String) : String :=
  String.mk (s.data.map Char.toLower)

/-- `BacktestEngine.isBetWinner`: a buy bet wins when the bet outcome
equals the resolved outcome case-insensitively; a sell bet wins when it
does not. -/
def isBetWinner (bet : Bet) (resolvedOutcome : String) : Bool :=
  match bet.side with
  | Side.buy => jsToLowerCase bet.outcome == jsToLowerCase resolvedOutcome
  | Side.sell => !(jsToLowerCase bet.outcome == jsToLowerCase resolvedOutcome)

/-- `BacktestEngine.prepareMarketSnapshot`: a per-run copy of a test
market with `active = true`, `resolvedOutcome = null`, and the price and
trade histories copied and sorted ascending by timestamp. -/
def prepareMarketSnapshot (market : PolymarketMarket) : PolymarketMarket :=
  { market with
    active := true
    resolvedOutcome := none
    historicalPrices := market.historicalPrices.insertionSort priceTimeLe
    trades := market.trades.insertionSort tradeTimeLe }

/-- `markets.filter((m) => m.resolvedOutcome !== null)` (a strict null
check, not a truthiness check). -/
def resolvedMarketsOf (markets : List PolymarketMarket) :
    List PolymarketMarket :=
  markets.filter (fun m => m.resolvedOutcome.isSome)

/-- `orderBy(resolvedMarkets, ['endDate'], ['asc'])`. -/
def sortedMarketsOf (markets : List PolymarketMarket) :
    List PolymarketMarket :=
  (resolvedMarketsOf markets).insertionSort marketEndDateLe

/-- `Math.floor(sortedMarkets.length * trainingRatio)` (the exact-rational
model of the float product; nonnegative ratios give nonnegative indexes,
so `Int.toNat` is faithful to `Array.prototype.slice`). -/
def splitIndexOf (markets : List PolymarketMarket) (ratio : ℚ) : Nat :=
  (Int.floor (((sortedMarketsOf markets).length : ℚ) * ratio)).toNat

/-- `sortedMarkets.slice(0, splitIndex)`. -/
def trainingMarketsOf (markets : List PolymarketMarket) (ratio : ℚ) :
    List PolymarketMarket :=
  (sortedMarketsOf markets).take (splitIndexOf markets ratio)

/-- `sortedMarkets.slice(splitIndex)`. -/
def testMarketsOf (markets : List PolymarketMarket) (ratio : ℚ) :
    List PolymarketMarket :=
  (sortedMarketsOf markets).drop (splitIndexOf markets ratio)

/-- The `backtestContext` value built by `BacktestEngine.backtest`. -/
def backtestContextOf (markets : List PolymarketMarket) (ratio : ℚ) :
    StrategyContext :=
  { mode := Mode.backtest
    asOf := none
    trainingMarkets := some (trainingMarketsOf markets ratio)
    evaluationMarkets := some (testMarketsOf markets ratio) }

/-- The `proposedBets` of a run: the strategy invoked on the snapshots of
the test markets under the backtest context. -/
def proposedBetsOf (strategy : Strategy) (markets : List PolymarketMarket)
    (ratio : ℚ) : List Bet :=
  strategy.generateBets
    ((testMarketsOf markets ratio).map prepareMarketSnapshot)
    (backtestContextOf markets ratio)

/-- The mutable state of the `proposedBets.forEach` simulation loop. -/
structure SimState where
  backtestBets : List BacktestBet
  cumulativeEarnings : ℚ
  earningsOverTime : List EarningsPoint
deriving DecidableEq

/-- The state at the top of the simulation loop. -/
def initSimState : SimState :=
  { backtestBets := [], cumulativeEarnings := 0, earningsOverTime := [] }

/-- The guard of the simulation loop:
`const market = testMarkets.find((m) => m.marketId === bet.marketId);
if (!market || !market.resolvedOutcome) return;` — the second test is
JavaScript truthiness, so a `null` or empty resolved outcome skips the
bet. -/
def lookupScorableOutcome (testMarkets : List PolymarketMarket)
    (bet : Bet) : Option String :=
  match testMarkets.find? (fun m => m.marketId == bet.marketId) with
  | none => none
  | some market =>
    match market.resolvedOutcome with
    | none => none
    | some ro => if ro == "" then none else some ro

/-- One step of the simulation loop: resolve a proposed bet against the
ground-truth test market and append to the running aggregates. -/
def simulateBet (strategyId : String)
    (testMarkets : List PolymarketMarket) (st : SimState) (bet : Bet) :
    SimState :=
  match lookupScorableOutcome testMarkets bet with
  | none => st
  | some ro =>
    let betWon := isBetWinner bet ro
    let cost := bet.amount * bet.priceLimit
    let payout := if betWon then bet.amount else 0
    let cum := st.cumulativeEarnings + (payout - cost)
    { backtestBets := st.backtestBets ++
        [{ bet := bet
           result := if betWon then BetResult.win else BetResult.loss
           payout := payout
           cost := cost }]
      cumulativeEarnings := cum
      earningsOverTime := st.earningsOverTime ++
        [{ timestamp := bet.timestamp
           cumulativeEarnings := cum
           strategyId := strategyId }] }

/-- The metrics block at the end of `BacktestEngine.backtest`, assembling
the `BacktestResult` from the final loop state. -/
def resultOfState (strategyId strategyName : String) (st : SimState) :
    BacktestResult :=
  let backtestBets := st.backtestBets
  let wins := (backtestBets.filter (fun b => b.result == BetResult.win)).length
  let losses := (backtestBets.filter (fun b => b.result == BetResult.loss)).length
  let totalCost := (backtestBets.map (fun b => b.cost)).sum
  let totalWinnings := (backtestBets.map (fun b => b.payout)).sum
  let netProfit := totalWinnings - totalCost
  { strategyId := strategyId
    strategyName := strategyName
    totalBets := backtestBets.length
    wins := wins
    losses := losses
    winRate :=
      if 0 < backtestBets.length then ((wins : ℚ) / (backtestBets.length : ℚ)) * 100
      else 0
    totalCost := totalCost
    totalWinnings := totalWinnings
    netProfit := netProfit
    roi := if 0 < totalCost then netProfit / totalCost * 100 else 0
    bets := backtestBets
    earningsOverTime := st.earningsOverTime }

/-- `BacktestEngine.backtest(strategy, markets, trainingRatio = 0.8)`,
with the default ratio written `8/10` at use sites. -/
def backtest (strategy : Strategy) (markets : List PolymarketMarket)
    (ratio : ℚ) : BacktestResult :=
  resultOfState strategy.id strategy.name
    ((proposedBetsOf strategy markets ratio).foldl
      (simulateBet strategy.id (testMarketsOf markets ratio)) initSimState)

/-- One row of `volatileMarkets`: `{marketId, question, variance}`. -/
structure VolatileEntry where
  marketId : String
  question : String
  variance : ℚ
deriving DecidableEq

/-- Descending order on volatility rows by variance (the comparator
`(a, b) => b.variance - a.variance`). -/
def varianceGe (a b : VolatileEntry) : Prop :=
  b.variance ≤ a.variance

instance varianceGe.decRel : DecidableRel varianceGe :=
  fun a b => inferInstanceAs (Decidable (b.variance ≤ a.variance))

instance varianceGe.total : IsTotal VolatileEntry varianceGe :=
  ⟨fun a b => le_total b.variance a.variance⟩

instance varianceGe.trans : IsTrans VolatileEntry varianceGe :=
  ⟨fun _ _ _ h h2 => le_trans h2 h⟩

/-- The per-market variance of `calculateHistoricalStats`: the mean of
`(price - 0.5)^2` over all price points of the market. -/
def varianceOf (m : PolymarketMarket) : ℚ :=
  ((m.historicalPrices.map (fun p => p.price)).map (fun p => (p - 1/2)^2)).sum /
    (((m.historicalPrices.map (fun p => p.price)).length : ℚ))

/-- The `HistoricalStats` record returned by
`BacktestEngine.calculateHistoricalStats`; `topOutcomes` is an insertion
ordered association list modelling the frequency object. -/
structure HistoricalStats where
  totalMarkets : Nat
  resolvedMarkets : Nat
  avgVolume : ℚ
  avgLiquidity : ℚ
  volatileMarkets : List VolatileEntry
  topOutcomes : List (String × Nat)
deriving DecidableEq

/-- One step of the `outcomeFreq` reduce:
`acc[m.resolvedOutcome] = (acc[m.resolvedOutcome] || 0) + 1`. -/
def addOutcome (acc : List (String × Nat)) (o : String) :
    List (String × Nat) :=
  if acc.any (fun kv => kv.1 == o) then
    acc.map (fun kv => if kv.1 == o then (kv.1, kv.2 + 1) else kv)
  else acc ++ [(o, 1)]

/-- `BacktestEngine.calculateHistoricalStats`. -/
def calculateHistoricalStats (markets : List PolymarketMarket) :
    HistoricalStats :=
  let resolvedMarkets := markets.filter (fun m => m.resolvedOutcome.isSome)
  let volatileMarkets :=
    (((markets.filter (fun m => 10 < m.historicalPrices.length)).map
      (fun m => VolatileEntry.mk m.marketId m.question (varianceOf m))).insertionSort
        varianceGe).take 5
  let outcomeFreq := resolvedMarkets.foldl
    (fun acc m => addOutcome acc (m.resolvedOutcome.getD "")) []
  { totalMarkets := markets.length
    resolvedMarkets := resolvedMarkets.length
    avgVolume :=
      if 0 < markets.length then
        (markets.map (fun m => m.volume)).sum / (markets.length : ℚ)
      else 0
    avgLiquidity :=
      if 0 < markets.length then
        (markets.map (fun m => m.liquidity)).sum / (markets.length : ℚ)
      else 0
    volatileMarkets := volatileMarkets
    topOutcomes := outcomeFreq }

/-! Sample values used to instantiate the universally quantified
theorems below on concrete inputs. -/

/-- A concrete resolved market. -/
def sampleResolvedMarket : PolymarketMarket :=
  { marketId := "A"
    question := "qA"
    outcomes := ["Yes", "No"]
    resolutionDate := none
    historicalPrices := [{ timestamp := 0, price := 6/10, outcome := "Yes" },
                         { timestamp := 1, price := 55/100, outcome := "Yes" }]
    trades := []
    resolvedOutcome := some "Yes"
    volume := 100
    liquidity := 100
    active := false
    endDate := some 10 }

/-- A concrete buy bet on the sample market. -/
def sampleYesBuyBet : Bet :=
  { marketId := "A", outcome := "Yes", side := Side.buy, amount := 10
    priceLimit := 6/10, reason := "r", timestamp := 1 }

/-- The same bet on the sell side. -/
def sampleYesSellBet : Bet :=
  { marketId := "A", outcome := "Yes", side := Side.sell, amount := 10
    priceLimit := 6/10, reason := "r", timestamp := 1 }

/-- The buy bet with its outcome written in upper case. -/
def sampleUpperBuyBet : Bet :=
  { marketId := "A", outcome := "YES", side := Side.buy, amount := 10
    priceLimit := 6/10, reason := "r", timestamp := 1 }

/-- The sample market stripped of its history and `endDate` (and with no
`resolutionDate`), reaching the wall-clock fallback of the decision-time
rule. -/
def sampleBareMarket : PolymarketMarket :=
  { sampleResolvedMarket with historicalPrices := [], endDate := none }

/-- A concrete strategy returning a fixed bet list. -/
def constStrategyOf (l : List Bet) : Strategy :=
  { id := "s", name := "S", description := "d", stratType := "t"
    generateBets := fun _ _ => l }

/-! Shared lemmas about the engine. -/

/-- The clamp really lands in the closed interval. -/
theorem clampPrice_mem (price : ℚ) :
    1/100 ≤ clampPrice price ∧ clampPrice price ≤ 99/100 := by
  constructor
  · exact le_max_left _ _
  · refine max_le (by norm_num) ?_
    exact min_le_left _ _

/-- A successful scoring lookup returns the resolved outcome of a test
market whose id matches the bet. -/
theorem lookupScorableOutcome_some {tms : List PolymarketMarket} {bet : Bet}
    {ro : String} (h : lookupScorableOutcome tms bet = some ro) :
    ∃ m ∈ tms, m.marketId = bet.marketId ∧ m.resolvedOutcome = some ro := by
  unfold lookupScorableOutcome at h
  split at h
  · exact absurd h (by simp)
  next market hf =>
    split at h
    · exact absurd h (by simp)
    next r0 hro =>
      split at h
      · exact absurd h (by simp)
      · cases h
        refine ⟨market, List.mem_of_find?_eq_some hf, ?_, hro⟩
        have hp := List.find?_some hf
        simpa using hp

/-- Claim C1: for every bet scored by the engine the settlement rule is
case-insensitive equality with the resolved outcome: a buy wins exactly
when the lowered outcomes are equal, a sell exactly when they are not; in
particular a buy on Yes against a market resolved Yes wins, the same bet
against No loses, and a sell on Yes against No wins. -/
theorem c1_isBetWinner_case_insensitive :
    (∀ (bet : Bet) (ro : String),
      (bet.side = Side.buy →
        (isBetWinner bet ro = true ↔
          jsToLowerCase bet.outcome = jsToLowerCase ro)) ∧
      (bet.side = Side.sell →
        (isBetWinner bet ro = true ↔
          ¬ jsToLowerCase bet.outcome = jsToLowerCase ro))) ∧
    isBetWinner sampleYesBuyBet "Yes" = true ∧
    isBetWinner sampleYesBuyBet "No" = false ∧
    isBetWinner sampleYesSellBet "No" = true := by
  refine ⟨fun bet ro => ⟨fun hb => ?_, fun hs => ?_⟩, by decide, by decide,
    by decide⟩
  · simp [isBetWinner, hb]
  · simp [isBetWinner, hs]

/-- Witness for C1 at concrete inputs: case-insensitive matching makes a
buy on YES win against a market resolved to yes. -/
theorem c1_isBetWinner_case_insensitive_witness :
    isBetWinner sampleUpperBuyBet "yes" = true :=
  ((c1_isBetWinner_case_insensitive.1 sampleUpperBuyBet "yes").1
    rfl).mpr (by decide)

/-- Claim C4: the ratio computations guard their denominators: a run with
no counted bets has `winRate = 0`, a run with zero total cost has
`roi = 0`, and the historical statistics of the empty market set have
`avgVolume = 0` and `avgLiquidity = 0`; otherwise `roi` and `winRate` are
the guarded quotients times 100. -/
theorem c4_ratio_guards :
    (∀ (strategy : Strategy) (markets : List PolymarketMarket) (ratio : ℚ),
      ((backtest strategy markets ratio).totalBets = 0 →
        (backtest strategy markets ratio).winRate = 0) ∧
      ((backtest strategy markets ratio).totalCost = 0 →
        (backtest strategy markets ratio).roi = 0) ∧
      (0 < (backtest strategy markets ratio).totalCost →
        (backtest strategy markets ratio).roi =
          (backtest strategy markets ratio).netProfit /
            (backtest strategy markets ratio).totalCost * 100) ∧
      (0 < (backtest strategy markets ratio).totalBets →
        (backtest strategy markets ratio).winRate =
          ((backtest strategy markets ratio).wins : ℚ) /
            ((backtest strategy markets ratio).totalBets : ℚ) * 100)) ∧
    (calculateHistoricalStats []).avgVolume = 0 ∧
    (calculateHistoricalStats []).avgLiquidity = 0 := by
  refine ⟨fun strategy markets ratio => ?_, by decide, by decide⟩
  simp only [backtest, resultOfState]
  refine ⟨fun h0 => ?_, fun hc => ?_, fun hc => ?_, fun h0 => ?_⟩
  · simp only at h0 ⊢
    rw [if_neg (by omega)]
  · simp only at hc ⊢
    rw [if_neg (by rw [hc]; exact lt_irrefl 0)]
  · simp only at hc ⊢
    rw [if_pos hc]
  · simp only at h0 ⊢
    rw [if_pos (by omega)]

/-- Witness for C4 at concrete inputs: the empty run divides nowhere and
reports zero rates, and a run with one winning bet gets the unguarded
quotients. -/
theorem c4_ratio_guards_witness :
    (backtest (constStrategyOf []) [] (8/10)).winRate = 0 ∧
    (backtest (constStrategyOf []) [] (8/10)).roi = 0 ∧
    (backtest (constStrategyOf [sampleYesBuyBet]) [sampleResolvedMarket]
      0).roi = (backtest (constStrategyOf [sampleYesBuyBet])
        [sampleResolvedMarket] 0).netProfit /
        (backtest (constStrategyOf [sampleYesBuyBet]) [sampleResolvedMarket]
          0).totalCost * 100 :=
  ⟨(c4_ratio_guards.1 (constStrategyOf []) [] (8/10)).1 (by decide),
   (c4_ratio_guards.1 (constStrategyOf []) [] (8/10)).2.1 (by decide),
   (c4_ratio_guards.1 (constStrategyOf [sampleYesBuyBet])
     [sampleResolvedMarket] 0).2.2.1 (by decide)⟩

/-- Claim C5: backtesting is deterministic: two invocations with the same
strategy, the same market pool and the same training ratio return equal
results; the engine threads no state between runs. -/
theorem c5_backtest_deterministic :
    ∀ (s1 s2 : Strategy) (m1 m2 : List PolymarketMarket) (r1 r2 : ℚ),
      s1 = s2 → m1 = m2 → r1 = r2 →
      backtest s1 m1 r1 = backtest s2 m2 r2 := by
  intro s1 s2 m1 m2 r1 r2 hs hm hr
  rw [hs, hm, hr]

/-- Witness for C5 at concrete inputs. -/
theorem c5_backtest_deterministic_witness :
    backtest (constStrategyOf [sampleYesBuyBet]) [sampleResolvedMarket]
        (8/10) =
      backtest (constStrategyOf [sampleYesBuyBet]) [sampleResolvedMarket]
        (8/10) :=
  c5_backtest_deterministic (constStrategyOf [sampleYesBuyBet])
    (constStrategyOf [sampleYesBuyBet]) [sampleResolvedMarket]
    [sampleResolvedMarket] (8/10) (8/10) rfl rfl rfl

/-- Claim C8: the decision time is the timestamp of the last historical
price in backtest mode when the history is non-empty, else `endDate`, else
`resolutionDate`, else the wall clock; in live mode it is the wall
clock. -/
theorem c8_determineDecisionTime_cases :
    ∀ (now : Int) (market : PolymarketMarket),
      determineDecisionTime now market Mode.live = now ∧
      (∀ p, market.historicalPrices.getLast? = some p →
        determineDecisionTime now market Mode.backtest = p.timestamp) ∧
      (∀ e, market.historicalPrices = [] → market.endDate = some e →
        determineDecisionTime now market Mode.backtest = e) ∧
      (∀ r, market.historicalPrices = [] → market.endDate = none →
        market.resolutionDate = some r →
        determineDecisionTime now market Mode.backtest = r) ∧
      (market.historicalPrices = [] → market.endDate = none →
        market.resolutionDate = none →
        determineDecisionTime now market Mode.backtest = now) := by
  intro now market
  refine ⟨rfl, fun p hp => ?_, fun e h0 he => ?_, fun r h0 he hr => ?_,
    fun h0 he hr => ?_⟩
  · simp [determineDecisionTime, hp]
  · simp [determineDecisionTime, h0, he]
  · simp [determineDecisionTime, h0, he, hr]
  · simp [determineDecisionTime, h0, he, hr]

/-- Witness for C8 at concrete inputs: with a non-empty history the
decision time is the last price timestamp, and with no history, no
`endDate` and no `resolutionDate` it falls back to the wall clock. -/
theorem c8_determineDecisionTime_cases_witness :
    determineDecisionTime 77 sampleResolvedMarket Mode.backtest = 1 ∧
    determineDecisionTime 77 sampleBareMarket Mode.backtest = 77 :=
  ⟨(c8_determineDecisionTime_cases 77 sampleResolvedMarket).2.1
      { timestamp := 1, price := 55/100, outcome := "Yes" } (by decide),
   (c8_determineDecisionTime_cases 77 sampleBareMarket).2.2.2.2 rfl rfl rfl⟩

/-- Claim C3: the snapshot handed to the strategy for each test market is
a copy with `active = true`, `resolvedOutcome = null`, the price and trade
histories re-sorted ascending by timestamp (as permutations: nothing is
truncated), every other field unchanged; and the engine invokes the
strategy on the snapshots while the scoring fold runs over the original,
resolution-bearing test markets. -/
theorem c3_prepareMarketSnapshot :
    (∀ (market : PolymarketMarket),
      (prepareMarketSnapshot market).active = true ∧
      (prepareMarketSnapshot market).resolvedOutcome = none ∧
      (prepareMarketSnapshot market).historicalPrices.Perm
        market.historicalPrices ∧
      List.Sorted priceTimeLe (prepareMarketSnapshot market).historicalPrices ∧
      (prepareMarketSnapshot market).trades.Perm market.trades ∧
      List.Sorted tradeTimeLe (prepareMarketSnapshot market).trades ∧
      (prepareMarketSnapshot market).historicalPrices.length =
        market.historicalPrices.length ∧
      (prepareMarketSnapshot market).trades.length = market.trades.length ∧
      (prepareMarketSnapshot market).marketId = market.marketId ∧
      (prepareMarketSnapshot market).question = market.question ∧
      (prepareMarketSnapshot market).outcomes = market.outcomes ∧
      (prepareMarketSnapshot market).volume = market.volume ∧
      (prepareMarketSnapshot market).liquidity = market.liquidity ∧
      (prepareMarketSnapshot market).endDate = market.endDate ∧
      (prepareMarketSnapshot market).resolutionDate = market.resolutionDate) ∧
    ∀ (strategy : Strategy) (markets : List PolymarketMarket) (ratio : ℚ),
      backtest strategy markets ratio =
        resultOfState strategy.id strategy.name
          ((strategy.generateBets
              ((testMarketsOf markets ratio).map prepareMarketSnapshot)
              (backtestContextOf markets ratio)).foldl
            (simulateBet strategy.id (testMarketsOf markets ratio))
            initSimState) := by
  refine ⟨fun market => ?_, fun strategy markets ratio => rfl⟩
  refine ⟨rfl, rfl, List.perm_insertionSort _ _, List.sorted_insertionSort _ _,
    List.perm_insertionSort _ _, List.sorted_insertionSort _ _,
    List.length_insertionSort _ _, List.length_insertionSort _ _,
    rfl, rfl, rfl, rfl, rfl, rfl, rfl⟩

/-- Every bet recorded by the simulation fold was matched to some test
market by id. -/
theorem simulateBet_foldl_marketId (sid : String)
    (tms : List PolymarketMarket) :
    ∀ (bets : List Bet) (st : SimState),
      (∀ b ∈ st.backtestBets, ∃ m ∈ tms, m.marketId = b.bet.marketId) →
      ∀ b ∈ (bets.foldl (simulateBet sid tms) st).backtestBets,
        ∃ m ∈ tms, m.marketId = b.bet.marketId := by
  intro bets
  induction bets with
  | nil => intro st h; simpa using h
  | cons bet rest ih =>
    intro st h
    simp only [List.foldl_cons]
    apply ih
    intro b hb
    unfold simulateBet at hb
    split at hb
    · exact h b hb
    next ro hlk =>
      simp only at hb
      rcases List.mem_append.mp hb with h1 | h2
      · exact h b h1
      · obtain ⟨m, hm, hid, _⟩ := lookupScorableOutcome_some hlk
        have hb2 := List.mem_singleton.mp h2
        refine ⟨m, hm, ?_⟩
        rw [hb2]
        exact hid

/-- Claim C2: the engine keeps exactly the markets with a non-null
`resolvedOutcome`, sorts them ascending by `endDate`, splits at
`floor(count * ratio)` into a training prefix and a test suffix, generates
bets only from (snapshots of) the test suffix and scores only against
test markets; 100 resolved markets with the default ratio 0.8 always give
80 training and 20 test markets. -/
theorem c2_chronological_split :
    ∀ (strategy : Strategy) (markets : List PolymarketMarket) (ratio : ℚ),
      (∀ m, m ∈ resolvedMarketsOf markets ↔
        m ∈ markets ∧ m.resolvedOutcome ≠ none) ∧
      (sortedMarketsOf markets).Perm (resolvedMarketsOf markets) ∧
      List.Sorted marketEndDateLe (sortedMarketsOf markets) ∧
      splitIndexOf markets ratio =
        (Int.floor (((sortedMarketsOf markets).length : ℚ) * ratio)).toNat ∧
      trainingMarketsOf markets ratio =
        (sortedMarketsOf markets).take (splitIndexOf markets ratio) ∧
      testMarketsOf markets ratio =
        (sortedMarketsOf markets).drop (splitIndexOf markets ratio) ∧
      proposedBetsOf strategy markets ratio =
        strategy.generateBets
          ((testMarketsOf markets ratio).map prepareMarketSnapshot)
          (backtestContextOf markets ratio) ∧
      (∀ b ∈ (backtest strategy markets ratio).bets,
        ∃ m ∈ testMarketsOf markets ratio, m.marketId = b.bet.marketId) ∧
      ((resolvedMarketsOf markets).length = 100 → ratio = 8/10 →
        (trainingMarketsOf markets ratio).length = 80 ∧
        (testMarketsOf markets ratio).length = 20) := by
  intro strategy markets ratio
  have hslen : (sortedMarketsOf markets).length =
      (resolvedMarketsOf markets).length :=
    List.length_insertionSort _ _
  refine ⟨?_, List.perm_insertionSort _ _, List.sorted_insertionSort _ _,
    rfl, rfl, rfl, rfl, ?_, ?_⟩
  · intro m
    simp [resolvedMarketsOf, Option.isSome_iff_ne_none]
  · intro b hb
    exact simulateBet_foldl_marketId strategy.id (testMarketsOf markets ratio)
      (proposedBetsOf strategy markets ratio) initSimState
      (by intro x hx; exact absurd hx (by simp [initSimState])) b hb
  · intro h100 hr
    have hidx : splitIndexOf markets ratio = 80 := by
      rw [splitIndexOf, hslen, h100, hr]
      norm_num
      decide
    have hlen100 : (sortedMarketsOf markets).length = 100 := hslen.trans h100
    constructor
    · rw [trainingMarketsOf, List.length_take, hidx, hlen100]
      decide
    · rw [testMarketsOf, List.length_drop, hidx, hlen100]

/-- Witness for C2 at concrete inputs: the sample pool holds one resolved
market; with ratio 0 the whole pool is the test set and the single scored
bet is matched to it. -/
theorem c2_chronological_split_witness :
    ∀ b ∈ (backtest (constStrategyOf [sampleYesBuyBet])
      [sampleResolvedMarket] 0).bets,
      ∃ m ∈ testMarketsOf [sampleResolvedMarket] 0,
        m.marketId = b.bet.marketId := by
  have h := (c2_chronological_split (constStrategyOf [sampleYesBuyBet])
    [sampleResolvedMarket] 0).2.2.2.2.2.2.2.1
  exact h

/-- The bookkeeping invariant of the simulation loop state: the running
total equals the sum of `payout - cost` over the recorded bets, one
earnings point exists per recorded bet, the last earnings point (when any
bet exists) carries the running total, and no recorded bet is pending. -/
def SimInv (st : SimState) : Prop :=
  st.cumulativeEarnings =
    (st.backtestBets.map (fun b => b.payout - b.cost)).sum ∧
  st.earningsOverTime.length = st.backtestBets.length ∧
  ((st.backtestBets = [] ∧ st.earningsOverTime = []) ∨
    st.earningsOverTime.getLast?.map (fun e => e.cumulativeEarnings) =
      some st.cumulativeEarnings) ∧
  ∀ b ∈ st.backtestBets, b.result = BetResult.win ∨ b.result = BetResult.loss

/-- The initial loop state satisfies the bookkeeping invariant. -/
theorem simInv_init : SimInv initSimState := by
  refine ⟨by simp [initSimState], by simp [initSimState],
    Or.inl ⟨rfl, rfl⟩, by simp [initSimState]⟩

/-- One simulation step preserves the bookkeeping invariant. -/
theorem simInv_step (sid : String) (tms : List PolymarketMarket)
    (st : SimState) (bet : Bet) (h : SimInv st) :
    SimInv (simulateBet sid tms st bet) := by
  obtain ⟨hcum, hlen, hlast, hres⟩ := h
  unfold simulateBet
  split
  · exact ⟨hcum, hlen, hlast, hres⟩
  next ro hlk =>
    refine ⟨?_, ?_, ?_, ?_⟩
    · simp only [List.map_append, List.sum_append, List.map_cons,
        List.map_nil, List.sum_cons, List.sum_nil]
      rw [hcum]
      ring
    · simp [hlen]
    · right
      simp
    · intro b hb
      rcases List.mem_append.mp hb with h1 | h2
      · exact hres b h1
      · have hb2 := List.mem_singleton.mp h2
        rw [hb2]
        by_cases hw : isBetWinner bet ro = true
        · left
          simp [hw]
        · right
          simp [hw]

/-- The simulation fold preserves the bookkeeping invariant. -/
theorem simInv_foldl (sid : String) (tms : List PolymarketMarket) :
    ∀ (bets : List Bet) (st : SimState), SimInv st →
      SimInv (bets.foldl (simulateBet sid tms) st) := by
  intro bets
  induction bets with
  | nil => intro st h; simpa using h
  | cons bet rest ih =>
    intro st h
    simp only [List.foldl_cons]
    exact ih _ (simInv_step sid tms st bet h)

/-- Splitting win and loss filters a list of bets that are each win or
loss counts the whole list. -/
theorem winloss_filter_length (l : List BacktestBet)
    (h : ∀ b ∈ l, b.result = BetResult.win ∨ b.result = BetResult.loss) :
    (l.filter (fun b => b.result == BetResult.win)).length +
      (l.filter (fun b => b.result == BetResult.loss)).length = l.length := by
  induction l with
  | nil => simp
  | cons b t ih =>
    have hb := h b (List.mem_cons_self b t)
    have ht := ih (fun x hx => h x (List.mem_cons_of_mem b hx))
    rcases hb with hw | hl
    · simp [List.filter_cons, hw]
      omega
    · simp [List.filter_cons, hl]
      omega

/-- Summing `payout - cost` termwise equals summing payouts minus summing
costs. -/
theorem sum_map_payout_sub_cost (l : List BacktestBet) :
    (l.map (fun b => b.payout - b.cost)).sum =
      (l.map (fun b => b.payout)).sum - (l.map (fun b => b.cost)).sum := by
  induction l with
  | nil => simp
  | cons b t ih =>
    simp only [List.map_cons, List.sum_cons, ih]
    ring

/-- Claim C10: every run emits one earnings point per counted bet, scores
every counted bet win or loss (never pending) so that
`wins + losses = totalBets`, has `netProfit = totalWinnings - totalCost`,
and when any bet was counted the final cumulative earnings equal the net
profit. -/
theorem c10_earnings_accounting :
    ∀ (strategy : Strategy) (markets : List PolymarketMarket) (ratio : ℚ),
      (backtest strategy markets ratio).earningsOverTime.length =
        (backtest strategy markets ratio).totalBets ∧
      (∀ b ∈ (backtest strategy markets ratio).bets,
        b.result = BetResult.win ∨ b.result = BetResult.loss) ∧
      (backtest strategy markets ratio).wins +
          (backtest strategy markets ratio).losses =
        (backtest strategy markets ratio).totalBets ∧
      (backtest strategy markets ratio).netProfit =
        (backtest strategy markets ratio).totalWinnings -
          (backtest strategy markets ratio).totalCost ∧
      (0 < (backtest strategy markets ratio).totalBets →
        (backtest strategy markets ratio).earningsOverTime.getLast?.map
            (fun e => e.cumulativeEarnings) =
          some (backtest strategy markets ratio).netProfit) := by
  intro strategy markets ratio
  have hinv := simInv_foldl strategy.id (testMarketsOf markets ratio)
    (proposedBetsOf strategy markets ratio) initSimState simInv_init
  obtain ⟨hcum, hlen, hlast, hres⟩ := hinv
  refine ⟨hlen, hres, ?_, rfl, ?_⟩
  · exact winloss_filter_length _ hres
  · intro hpos
    rcases hlast with ⟨hb0, _⟩ | hsome
    · exact absurd hpos (by simp [backtest, resultOfState, hb0])
    · have : (backtest strategy markets ratio).netProfit =
          ((proposedBetsOf strategy markets ratio).foldl
            (simulateBet strategy.id (testMarketsOf markets ratio))
            initSimState).cumulativeEarnings := by
        rw [hcum, sum_map_payout_sub_cost]
        rfl
      rw [this]
      exact hsome

/-- Witness for C10 at concrete inputs: the sample run counts one bet and
its final earnings point carries the net profit. -/
theorem c10_earnings_accounting_witness :
    0 < (backtest (constStrategyOf [sampleYesBuyBet])
        [sampleResolvedMarket] 0).totalBets ∧
    (backtest (constStrategyOf [sampleYesBuyBet]) [sampleResolvedMarket]
        0).earningsOverTime.getLast?.map (fun e => e.cumulativeEarnings) =
      some (backtest (constStrategyOf [sampleYesBuyBet])
        [sampleResolvedMarket] 0).netProfit :=
  ⟨by decide,
   (c10_earnings_accounting (constStrategyOf [sampleYesBuyBet])
     [sampleResolvedMarket] 0).2.2.2.2 (by decide)⟩

/-- A bet whose market id matches no test market. -/
def sampleBadBet : Bet :=
  { marketId := "Z", outcome := "Yes", side := Side.buy, amount := 10
    priceLimit := 6/10, reason := "r", timestamp := 1 }

/-- A bet whose scoring lookup fails leaves the loop state untouched. -/
theorem simulateBet_skip (sid : String) (tms : List PolymarketMarket)
    (st : SimState) (bad : Bet)
    (h : lookupScorableOutcome tms bad = none) :
    simulateBet sid tms st bad = st := by
  unfold simulateBet
  rw [h]

/-- A bet is unscorable when every successful id lookup yields a market
with a null resolved outcome (so in particular when the lookup fails). -/
theorem lookupScorableOutcome_eq_none (tms : List PolymarketMarket)
    (bad : Bet)
    (h : ∀ m, tms.find? (fun x => x.marketId == bad.marketId) = some m →
      m.resolvedOutcome = none) :
    lookupScorableOutcome tms bad = none := by
  unfold lookupScorableOutcome
  split
  · rfl
  next market hf => rw [h market hf]

/-- Removing one unscorable bet anywhere in the proposed list does not
change the simulation fold. -/
theorem foldl_simulateBet_discard (sid : String)
    (tms : List PolymarketMarket) (l1 l2 : List Bet) (bad : Bet)
    (st : SimState) (h : lookupScorableOutcome tms bad = none) :
    (l1 ++ bad :: l2).foldl (simulateBet sid tms) st =
      (l1 ++ l2).foldl (simulateBet sid tms) st := by
  rw [List.foldl_append, List.foldl_append, List.foldl_cons,
    simulateBet_skip sid tms _ bad h]

/-- Claim C6: a proposed bet whose `marketId` matches no test market, or
matches only a test market with a null `resolvedOutcome`, is silently
discarded: the run with that bet in the proposed list returns exactly the
result of the run without it (so the bet is not retained in `bets` and
contributes nothing to any aggregate), and the run does not abort. -/
theorem c6_unmatched_bet_discarded :
    ∀ (s s2 : Strategy) (markets : List PolymarketMarket) (ratio : ℚ)
      (l1 l2 : List Bet) (bad : Bet),
      s2.id = s.id → s2.name = s.name →
      s2.generateBets
          ((testMarketsOf markets ratio).map prepareMarketSnapshot)
          (backtestContextOf markets ratio) = l1 ++ bad :: l2 →
      s.generateBets
          ((testMarketsOf markets ratio).map prepareMarketSnapshot)
          (backtestContextOf markets ratio) = l1 ++ l2 →
      (∀ m, (testMarketsOf markets ratio).find?
          (fun x => x.marketId == bad.marketId) = some m →
        m.resolvedOutcome = none) →
      backtest s2 markets ratio = backtest s markets ratio := by
  intro s s2 markets ratio l1 l2 bad hid hname hgen2 hgen hbad
  have hnone := lookupScorableOutcome_eq_none
    (testMarketsOf markets ratio) bad hbad
  unfold backtest proposedBetsOf
  rw [hid, hname, hgen2, hgen,
    foldl_simulateBet_discard s.id (testMarketsOf markets ratio) l1 l2 bad
      initSimState hnone]

/-- Witness for C6 at concrete inputs: adding a bet on an unknown market
id to the proposed list leaves the whole result unchanged. -/
theorem c6_unmatched_bet_discarded_witness :
    backtest (constStrategyOf [sampleBadBet]) [sampleResolvedMarket] 0 =
      backtest (constStrategyOf []) [sampleResolvedMarket] 0 :=
  c6_unmatched_bet_discarded (constStrategyOf [])
    (constStrategyOf [sampleBadBet]) [sampleResolvedMarket] 0 [] []
    sampleBadBet rfl rfl rfl rfl
    (fun m hm => by
      rw [show (testMarketsOf [sampleResolvedMarket] 0).find?
          (fun x => x.marketId == sampleBadBet.marketId) = none by decide]
        at hm
      cases hm)

/-- Every whale-copy bet for one market has a clamped price limit. -/
theorem copyTradingMarketBets_clamped (params : CopyTradingParams)
    (now : Int) (mode : Mode) (market : PolymarketMarket) :
    ∀ b ∈ copyTradingMarketBets params now mode market,
      1/100 ≤ b.priceLimit ∧ b.priceLimit ≤ 99/100 := by
  intro b hb
  unfold copyTradingMarketBets at hb
  split at hb
  · split at hb
    · exact absurd hb (by simp)
    · dsimp only at hb
      obtain ⟨t, _, rfl⟩ := List.mem_map.mp hb
      exact clampPrice_mem _
  · exact absurd hb (by simp)

/-- Every spike-reversal bet for one market has a clamped price limit. -/
theorem spikeDetectionMarketBets_clamped (now : Int) (mode : Mode)
    (market : PolymarketMarket) :
    ∀ b ∈ spikeDetectionMarketBets now mode market,
      1/100 ≤ b.priceLimit ∧ b.priceLimit ≤ 99/100 := by
  intro b hb
  unfold spikeDetectionMarketBets at hb
  split at hb
  · split at hb
    · exact absurd hb (by simp)
    · dsimp only at hb
      split at hb
      · exact absurd hb (by simp)
      · split at hb
        · have hb2 := List.mem_singleton.mp hb
          rw [hb2]
          exact clampPrice_mem _
        · exact absurd hb (by simp)
  · exact absurd hb (by simp)

/-- Both market-making bets for one market have clamped price limits. -/
theorem marketMakingMarketBets_clamped (sq : ℚ → ℚ) (now : Int)
    (mode : Mode) (market : PolymarketMarket) :
    ∀ b ∈ marketMakingMarketBets sq now mode market,
      1/100 ≤ b.priceLimit ∧ b.priceLimit ≤ 99/100 := by
  intro b hb
  unfold marketMakingMarketBets at hb
  split at hb
  · split at hb
    · exact absurd hb (by simp)
    · split at hb
      · exact absurd hb (by simp)
      · dsimp only at hb
        rcases List.mem_cons.mp hb with h1 | h2
        · rw [h1]
          exact clampPrice_mem _
        · have hb2 := List.mem_singleton.mp h2
          rw [hb2]
          exact clampPrice_mem _
  · exact absurd hb (by simp)

/-- Claim C7: every bet emitted by any of the three reference strategies
(whale copy trading for any current value of its parameters record, spike
reversal, market making for any volatility square root) has its
`priceLimit` inside the closed interval from 0.01 to 0.99. -/
theorem c7_priceLimit_clamped :
    (∀ (params : CopyTradingParams) (now : Int)
        (markets : List PolymarketMarket) (context : StrategyContext),
      ∀ b ∈ copyTradingGenerateBets params now markets context,
        1/100 ≤ b.priceLimit ∧ b.priceLimit ≤ 99/100) ∧
    (∀ (now : Int) (markets : List PolymarketMarket)
        (context : StrategyContext),
      ∀ b ∈ spikeDetectionGenerateBets now markets context,
        1/100 ≤ b.priceLimit ∧ b.priceLimit ≤ 99/100) ∧
    (∀ (sq : ℚ → ℚ) (now : Int) (markets : List PolymarketMarket)
        (context : StrategyContext),
      ∀ b ∈ marketMakingGenerateBets sq now markets context,
        1/100 ≤ b.priceLimit ∧ b.priceLimit ≤ 99/100) := by
  refine ⟨fun params now markets context b hb => ?_,
    fun now markets context b hb => ?_,
    fun sq now markets context b hb => ?_⟩
  · unfold copyTradingGenerateBets at hb
    obtain ⟨m, _, hbm⟩ := List.mem_flatMap.mp hb
    exact copyTradingMarketBets_clamped params now (resolveMode context) m
      b hbm
  · unfold spikeDetectionGenerateBets at hb
    obtain ⟨m, _, hbm⟩ := List.mem_flatMap.mp hb
    exact spikeDetectionMarketBets_clamped now (resolveMode context) m b hbm
  · unfold marketMakingGenerateBets at hb
    obtain ⟨m, _, hbm⟩ := List.mem_flatMap.mp hb
    exact marketMakingMarketBets_clamped sq now (resolveMode context) m b hbm

/-- A liquid market with one recent whale trade, on which the whale-copy
strategy emits a bet. -/
def sampleWhaleMarket : PolymarketMarket :=
  { marketId := "W"
    question := "qW"
    outcomes := ["Yes", "No"]
    resolutionDate := none
    historicalPrices := [{ timestamp := 1000000, price := 6/10,
                           outcome := "Yes" }]
    trades := [{ timestamp := 1000000, side := Side.buy, amount := 5000
                 price := 6/10, outcome := "Yes", maker := some "w"
                 taker := none }]
    resolvedOutcome := some "Yes"
    volume := 100
    liquidity := 100000
    active := false
    endDate := some 10 }

/-- A backtest-mode context carrying no partitions. -/
def sampleBacktestContext : StrategyContext :=
  { mode := Mode.backtest, asOf := none, trainingMarkets := none
    evaluationMarkets := none }

/-- The bet the whale-copy strategy emits on the sample whale market. -/
def sampleWhaleCopyBet : Bet :=
  { marketId := "W", outcome := "Yes", side := Side.buy, amount := 100
    priceLimit := 62/100, reason := "whale copy", timestamp := 1000000 }

/-- Witness for C7 at concrete inputs: the whale-copy bet emitted on the
sample whale market is clamped. -/
theorem c7_priceLimit_clamped_witness :
    1/100 ≤ sampleWhaleCopyBet.priceLimit ∧
      sampleWhaleCopyBet.priceLimit ≤ 99/100 :=
  c7_priceLimit_clamped.1 COPY_TRADING_DEFAULTS 0 [sampleWhaleMarket]
    sampleBacktestContext sampleWhaleCopyBet (by decide)

/-- Claim C9: `volatileMarkets` is the descending-by-variance top 5 of the
markets with strictly more than 10 price points, each entry carrying the
mean of `(price - 0.5)^2` over all of that market's price points: the
computed list is sorted descending, its entries together with some rest
form exactly the candidate entries, every discarded candidate has variance
at most that of every kept entry, and its length is the minimum of 5 and
the number of candidates. -/
theorem c9_volatileMarkets_top5 :
    ∀ (markets : List PolymarketMarket),
      ∃ rest : List VolatileEntry,
        ((markets.filter (fun m => 10 < m.historicalPrices.length)).map
          (fun m => VolatileEntry.mk m.marketId m.question
            ((m.historicalPrices.map (fun p => (p.price - 1/2)^2)).sum /
              (m.historicalPrices.length : ℚ)))).Perm
          ((calculateHistoricalStats markets).volatileMarkets ++ rest) ∧
        List.Sorted varianceGe
          (calculateHistoricalStats markets).volatileMarkets ∧
        (∀ x ∈ (calculateHistoricalStats markets).volatileMarkets,
          ∀ y ∈ rest, y.variance ≤ x.variance) ∧
        (calculateHistoricalStats markets).volatileMarkets.length =
          min 5 (markets.filter
            (fun m => 10 < m.historicalPrices.length)).length := by
  intro markets
  have hfuse :
      (markets.filter (fun m => 10 < m.historicalPrices.length)).map
        (fun m => VolatileEntry.mk m.marketId m.question
          ((m.historicalPrices.map (fun p => (p.price - 1/2)^2)).sum /
            (m.historicalPrices.length : ℚ))) =
      (markets.filter (fun m => 10 < m.historicalPrices.length)).map
        (fun m => VolatileEntry.mk m.marketId m.question (varianceOf m)) := by
    apply List.map_congr_left
    intro m _
    simp [varianceOf, List.map_map, Function.comp_def]
  rw [hfuse]
  set cand := (markets.filter (fun m => 10 < m.historicalPrices.length)).map
    (fun m => VolatileEntry.mk m.marketId m.question (varianceOf m)) with hc
  have hvol : (calculateHistoricalStats markets).volatileMarkets =
      (cand.insertionSort varianceGe).take 5 := rfl
  refine ⟨(cand.insertionSort varianceGe).drop 5, ?_, ?_, ?_, ?_⟩
  · rw [hvol, List.take_append_drop]
    exact (List.perm_insertionSort varianceGe cand).symm
  · rw [hvol]
    exact (List.sorted_insertionSort varianceGe cand).sublist
      (List.take_sublist 5 _)
  · rw [hvol]
    have hsorted := List.sorted_insertionSort varianceGe cand
    have hsplit : cand.insertionSort varianceGe =
        (cand.insertionSort varianceGe).take 5 ++
          (cand.insertionSort varianceGe).drop 5 :=
      (List.take_append_drop 5 _).symm
    rw [hsplit] at hsorted
    exact fun x hx y hy => (List.pairwise_append.mp hsorted).2.2 x hx y hy
  · rw [hvol, List.length_take, List.length_insertionSort,
      List.length_map]

/-- A market with eleven price points, eligible for the volatility
ranking. -/
def sampleVolatileMarket : PolymarketMarket :=
  { marketId := "V"
    question := "qV"
    outcomes := ["Yes", "No"]
    resolutionDate := none
    historicalPrices :=
      [{ timestamp := 0, price := 1/10, outcome := "Yes" },
       { timestamp := 1, price := 2/10, outcome := "Yes" },
       { timestamp := 2, price := 3/10, outcome := "Yes" },
       { timestamp := 3, price := 4/10, outcome := "Yes" },
       { timestamp := 4, price := 5/10, outcome := "Yes" },
       { timestamp := 5, price := 6/10, outcome := "Yes" },
       { timestamp := 6, price := 7/10, outcome := "Yes" },
       { timestamp := 7, price := 8/10, outcome := "Yes" },
       { timestamp := 8, price := 9/10, outcome := "Yes" },
       { timestamp := 9, price := 5/10, outcome := "Yes" },
       { timestamp := 10, price := 5/10, outcome := "Yes" }]
    trades := []
    resolvedOutcome := some "Yes"
    volume := 100
    liquidity := 100
    active := false
    endDate := some 10 }

/-- Witness for C9 at concrete inputs: on the single eligible sample
market the ranking is sorted and keeps exactly one entry. -/
theorem c9_volatileMarkets_top5_witness :
    List.Sorted varianceGe
      (calculateHistoricalStats [sampleVolatileMarket]).volatileMarkets ∧
    (calculateHistoricalStats [sampleVolatileMarket]).volatileMarkets.length
      = 1 := by
  obtain ⟨rest, hperm, hsort, hdom, hlen⟩ :=
    c9_volatileMarkets_top5 [sampleVolatileMarket]
  exact ⟨hsort, hlen.trans (by decide)⟩

end Polymarket
